import Mathlib

/-!
Verification of the WFDE5-To-SHETRAN pipeline.

This file shallowly embeds the data model and the four core operations of the
repository (`WFDE5-To-SHETRAN.py` and `CustomFunctionsToSHETRAN.py`) and proves
the spec's claims about them:

* bounding-box resolution by nearest index (`np.argmin` over absolute
  distances, plus one on the upper bounds);
* spatial clipping of a grid dataset by Python slice semantics;
* flattening a grid dataset into a per-cell time-series table with unit
  conversion and rounding to one decimal (numpy round-half-to-even);
* merging per-period tables: concatenation, sort by raw time index,
  calendar re-indexing against an hourly reference sequence, daily
  resampling by sums, and the sentinel repair `Replacer`;
* the ASC parameter-file parser's shape/fill behaviour.

Machine floats are modelled by `ℚ`; raw time coordinates (hours since the
1900-01-01 epoch) by `ℕ`.  Fallible steps (pandas index assignment with a
length mismatch raises; `pandas.DataFrame.iloc` raises on an out-of-range
write) return `Option`.
-/

namespace WFDE5

/-- Python list slicing `l[a:b]` for nonnegative bounds: out-of-range bounds
are clamped, never an error (semantics of slicing used throughout
`WFDE5NetCDFClipper` and the merger). -/
def pySlice {α : Type} (l : List α) (a b : ℕ) : List α :=
  (l.drop a).take (b - a)

/-- A NetCDF grid dataset as used by the scripts: 1-D coordinate arrays
`time` (integer hours since the epoch), `lat`, `lon`, and one 3-D variable
array indexed `[time][lat][lon]` (the `Rainf` variable). -/
structure NCDataset where
  time : List ℕ
  lat : List ℚ
  lon : List ℚ
  var : List (List (List ℚ))

/-- The invariant of §3 of the spec: the variable array's dimensions match
the lengths of the declared coordinate arrays. -/
def NCWellFormed (Data : NCDataset) : Prop :=
  Data.var.length = Data.time.length ∧
  ∀ frame ∈ Data.var, frame.length = Data.lat.length ∧
    ∀ row ∈ frame, row.length = Data.lon.length

/-- `np.argmin`: index of the first occurrence of the minimum of a list
(`(np.abs(Lats - North)).argmin()` in `WFDE5-To-SHETRAN.py`). -/
def npArgmin : List ℚ → ℕ
  | [] => 0
  | [_] => 0
  | x :: y :: xs =>
    if (y :: xs).getD (npArgmin (y :: xs)) 0 < x then npArgmin (y :: xs) + 1 else 0

/-- `(np.abs(Coords - t)).argmin()`: index of the coordinate closest to the
target bound `t`. -/
def nearestIdx (Coords : List ℚ) (t : ℚ) : ℕ :=
  npArgmin (Coords.map fun x => |x - t|)

/-- `IdxNorth = (np.abs(Lats - North)).argmin() + 1` (line 101). -/
def IdxNorth (Lats : List ℚ) (North : ℚ) : ℕ := nearestIdx Lats North + 1

/-- `IdxSouth = (np.abs(Lats - South)).argmin()` (line 102). -/
def IdxSouth (Lats : List ℚ) (South : ℚ) : ℕ := nearestIdx Lats South

/-- `IdxWest = (np.abs(Lons - West)).argmin()` (line 103). -/
def IdxWest (Lons : List ℚ) (West : ℚ) : ℕ := nearestIdx Lons West

/-- `IdxEast = (np.abs(Lons - East)).argmin() + 1` (line 104). -/
def IdxEast (Lons : List ℚ) (East : ℚ) : ℕ := nearestIdx Lons East + 1

/-- `WFDE5NetCDFClipper`: extracts `time[:]`, `lon[IdxWest:IdxEast]`,
`lat[IdxSouth:IdxNorth]` and `Rainf[:, IdxSouth:IdxNorth, IdxWest:IdxEast]`
into a new dataset; the source dataset is read, never mutated. -/
def WFDE5NetCDFClipper (FileRaw : NCDataset)
    (IdxWest IdxEast IdxNorth IdxSouth : ℕ) : NCDataset :=
  { time := FileRaw.time
    lon := pySlice FileRaw.lon IdxWest IdxEast
    lat := pySlice FileRaw.lat IdxSouth IdxNorth
    var := FileRaw.var.map fun frame =>
      (pySlice frame IdxSouth IdxNorth).map fun row => pySlice row IdxWest IdxEast }

/-- Round-half-to-even to an integer, the rounding mode of `np.round`. -/
def roundHalfEven (q : ℚ) : ℤ :=
  if q - ⌊q⌋ < 1/2 then ⌊q⌋
  else if (1 : ℚ)/2 < q - ⌊q⌋ then ⌊q⌋ + 1
  else if ⌊q⌋ % 2 = 0 then ⌊q⌋ else ⌊q⌋ + 1

/-- `np.round(x, 1)`: round to one decimal place. -/
def round1 (q : ℚ) : ℚ := (roundHalfEven (q * 10) : ℚ) / 10

/-- `Data.variables[Variable][:, Lat, Lon]`: the raw hourly series of one
grid cell. -/
def cellSeries (Data : NCDataset) (la lo : ℕ) : List ℚ :=
  Data.var.map fun frame => (frame.getD la []).getD lo 0

/-- The table built by `NetCDFToSHETRAN`: row index (the raw time
coordinate) and the list of columns, one per grid cell. -/
structure DfTable where
  index : List ℕ
  cols : List (List ℚ)

/-- `NetCDFToSHETRAN`: loops latitude (outer) then longitude (inner),
extracts each cell's series, multiplies by the unit conversion, rounds to
one decimal, and collects the series as columns of a table indexed by the
raw time coordinate. -/
def NetCDFToSHETRAN (Data : NCDataset) (UnitConversion : ℚ) : DfTable :=
  { index := Data.time
    cols := ((List.range Data.lat.length).map fun la =>
      (List.range Data.lon.length).map fun lo =>
        (cellSeries Data la lo).map fun v => round1 (v * UnitConversion)).flatten }

/-- A per-period cell time-series table as read back from CSV: one row per
raw time value, carrying that row's per-cell values. -/
abbrev Table := List (ℕ × List ℚ)

/-- The row index of a table (`Df.index`). -/
def tableIndex (t : Table) : List ℕ := t.map Prod.fst

/-- Insert a row into a table sorted by raw time index. -/
def insertRow (r : ℕ × List ℚ) : Table → Table
  | [] => [r]
  | s :: t => if r.1 < s.1 then r :: s :: t else s :: insertRow r t

/-- `Mdf.sort_index(ascending=True)`: sort the rows by raw time index. -/
def sortTable : Table → Table
  | [] => []
  | r :: t => insertRow r (sortTable t)

/-- Length of `pd.date_range('1900-01-01 00:00', '2011-01-01 00:00', freq='H')`:
40542 days (111 years of which 27 are leap) of 24 hours, inclusive of the
final midnight.  Entry `k` of the sequence is the calendar timestamp `k`
hours after the epoch, so a timestamp is modelled by its hour offset `k`. -/
def DateIndexLen : ℕ := 973009

/-- `DateIndex[MdfStart:MdfEnd]`: the calendar subset assigned as new index,
bounded by the first raw time value and the last raw time value plus one,
with Python slice clamping at the end of the reference sequence. -/
def calendarSubset (m : Table) : List ℕ :=
  List.range' ((tableIndex m).headD 0)
    (min ((tableIndex m).getLastD 0 + 1) DateIndexLen - (tableIndex m).headD 0)

/-- `Mdf.index = DateIndex[MdfStart:MdfEnd]`: pandas raises a `ValueError`
when the assigned index's length differs from the row count, and raises an
`IndexError` on `Mdf.index[0]` for an empty frame, so the step is fallible. -/
def reindexed (m : Table) : Option Table :=
  if m.isEmpty then none
  else if m.length = (calendarSubset m).length then
    some ((calendarSubset m).zip (m.map Prod.snd))
  else none

/-- The calendar day containing hour `h` since the epoch. -/
def dayOf (h : ℕ) : ℕ := h / 24

/-- Column-wise addition of two rows. -/
def addRows (a b : List ℚ) : List ℚ := List.zipWith (· + ·) a b

/-- The column count of a table (its schema width). -/
def nColsOf (m : Table) : ℕ := ((m.headD (0, [])).2).length

/-- Per-column sum of all rows of `m` falling on calendar day `d`. -/
def daySum (m : Table) (d : ℕ) : List ℚ :=
  ((m.filter fun r => dayOf r.1 == d).map Prod.snd).foldl addRows
    (List.replicate (nColsOf m) 0)

/-- `Mdf.resample('D').sum()`: one row per calendar day from the first to the
last day present, each the per-column sum of that day's hourly rows. -/
def resampleDaily (m : Table) : Table :=
  if m.isEmpty then []
  else (List.range' (dayOf ((tableIndex m).headD 0))
    (dayOf ((tableIndex m).getLastD 0) - dayOf ((tableIndex m).headD 0) + 1)).map
    fun d => (d, daySum m d)

/-- `Replacer = lambda x: 0.001 if x>1000 else x` (line 198). -/
def Replacer (x : ℚ) : ℚ := if x > 1000 then 1/1000 else x

/-- `for Col in Mdf.columns: Mdf[Col] = Mdf[Col].map(Replacer)`: apply the
sentinel repair to every value of the table. -/
def repairTable (m : Table) : Table :=
  m.map fun r => (r.1, r.2.map Replacer)

/-- The merger up to (and including) daily resampling: concatenate the
per-period tables, sort by raw index, re-index by the calendar subset,
resample to daily sums. -/
def mergeDaily (DfList : List Table) : Option Table :=
  (reindexed (sortTable DfList.flatten)).map resampleDaily

/-- The full merger/repairer of `WFDE5-To-SHETRAN.py` lines 181-200:
`mergeDaily` followed by the sentinel repair. -/
def mergePipeline (DfList : List Table) : Option Table :=
  (mergeDaily DfList).map repairTable

/-- Precondition under which the write loop of `ASCtoDfParam` performs no
out-of-range `iloc` write: every nonempty data line lies at a row index
below `Nrows` and has at most `Ncols` tokens. -/
def ascOk (dat : List (List ℚ)) (Nrows Ncols : ℕ) : Prop :=
  ∀ i < dat.length, dat.getD i [] = [] ∨
    (i < Nrows ∧ (dat.getD i []).length ≤ Ncols)

instance (dat : List (List ℚ)) (Nrows Ncols : ℕ) :
    Decidable (ascOk dat Nrows Ncols) := by
  unfold ascOk
  infer_instance

/-- The value at `(r, c)` after the write loop of `ASCtoDfParam`: the token
at that position when the file supplies one, the zero initialisation
otherwise. -/
def ascEntry (dat : List (List ℚ)) (r c : ℕ) : ℚ :=
  (dat.getD r []).getD c 0

/-- `ASCtoDfParam`: drop the 6 metadata lines, zero-initialise an
`Nrows × Ncols` table, and write each whitespace-split token at its line and
column position.  A token whose position falls outside the table makes
`iloc` raise, so the function is fallible. -/
def ASCtoDfParam (lines : List (List ℚ)) (Nrows Ncols : ℕ) :
    Option (List (List ℚ)) :=
  if ascOk (lines.drop 6) Nrows Ncols then
    some ((List.range Nrows).map fun r =>
      (List.range Ncols).map fun c => ascEntry (lines.drop 6) r c)
  else none



/-! ### List access helpers -/

theorem getD_map_of_lt {α β : Type} (f : α → β) (l : List α) (i : ℕ)
    (h : i < l.length) (d : β) (d' : α) :
    (l.map f).getD i d = f (l.getD i d') := by
  simp [List.getD_eq_getElem?_getD, List.getElem?_map,
    List.getElem?_eq_getElem h]

theorem getD_map_of_default {α β : Type} (f : α → β) (d : α) (e : β)
    (hf : f d = e) (l : List α) (i : ℕ) :
    (l.map f).getD i e = f (l.getD i d) := by
  rcases Nat.lt_or_ge i l.length with h | h
  · exact getD_map_of_lt f l i h e d
  · have h1 : l[i]? = none := List.getElem?_eq_none h
    have h2 : (l.map f)[i]? = none := by simp [List.getElem?_map, h1]
    simp [List.getD_eq_getElem?_getD, h1, h2, hf]

theorem getD_range_map {α : Type} (f : ℕ → α) (n i : ℕ) (h : i < n) (d : α) :
    ((List.range n).map f).getD i d = f i := by
  have : i < (List.range n).length := by simpa using h
  rw [getD_map_of_lt f _ i this d 0]
  simp [List.getD_eq_getElem?_getD, List.getElem?_range h]

theorem getD_mem_of_lt {α : Type} (l : List α) (i : ℕ) (h : i < l.length) (d : α) :
    l.getD i d ∈ l := by
  rw [List.getD_eq_getElem?_getD, List.getElem?_eq_getElem h]
  exact List.getElem_mem h

/-! ### The bounding-box resolver -/

theorem npArgmin_lt_length : ∀ l : List ℚ, l ≠ [] → npArgmin l < l.length := by
  intro l
  induction l with
  | nil => simp
  | cons x t ih =>
    intro _
    cases t with
    | nil => simp [npArgmin]
    | cons y xs =>
      have ht := ih (by simp)
      simp only [npArgmin]
      split
      · simpa using Nat.succ_lt_succ ht
      · simp

theorem npArgmin_min :
    ∀ l : List ℚ, ∀ j < l.length, l.getD (npArgmin l) 0 ≤ l.getD j 0 := by
  intro l
  induction l with
  | nil => simp
  | cons x t ih =>
    intro j hj
    cases t with
    | nil =>
      have hj0 : j = 0 := by simp at hj; omega
      subst hj0
      simp [npArgmin]
    | cons y xs =>
      simp only [npArgmin]
      split
      · rename_i hlt
        rw [List.getD_cons_succ]
        cases j with
        | zero => exact le_of_lt (by simpa using hlt)
        | succ j' =>
          rw [List.getD_cons_succ]
          exact ih j' (by simpa using hj)
      · rename_i hge
        push_neg at hge
        rw [List.getD_cons_zero]
        cases j with
        | zero => simp
        | succ j' =>
          rw [List.getD_cons_succ]
          exact le_trans hge (ih j' (by simpa using hj))

theorem npArgmin_first :
    ∀ l : List ℚ, ∀ j < npArgmin l, l.getD (npArgmin l) 0 < l.getD j 0 := by
  intro l
  induction l with
  | nil => simp [npArgmin]
  | cons x t ih =>
    intro j hj
    cases t with
    | nil => simp [npArgmin] at hj
    | cons y xs =>
      simp only [npArgmin] at hj ⊢
      split
      · rename_i hlt
        rw [List.getD_cons_succ]
        cases j with
        | zero => simpa using hlt
        | succ j' =>
          rw [List.getD_cons_succ]
          rw [if_pos hlt] at hj
          exact ih j' (by omega)
      · rename_i hge
        rw [if_neg hge] at hj
        omega


/-- C2: for every non-empty coordinate array and target bound, the resolver
returns the index of the element at minimal absolute distance to the target
(first occurrence on ties); `IdxNorth`/`IdxEast` add 1 to it, while
`IdxSouth`/`IdxWest` return it unchanged. -/
theorem C2_bounding_box_resolver (Coords : List ℚ) (t : ℚ) (h : Coords ≠ []) :
    nearestIdx Coords t < Coords.length ∧
    (∀ j < Coords.length,
      |Coords.getD (nearestIdx Coords t) 0 - t| ≤ |Coords.getD j 0 - t|) ∧
    (∀ j < nearestIdx Coords t,
      |Coords.getD (nearestIdx Coords t) 0 - t| < |Coords.getD j 0 - t|) ∧
    IdxNorth Coords t = nearestIdx Coords t + 1 ∧
    IdxEast Coords t = nearestIdx Coords t + 1 ∧
    IdxSouth Coords t = nearestIdx Coords t ∧
    IdxWest Coords t = nearestIdx Coords t := by
  have hL : (Coords.map fun x => |x - t|) ≠ [] := by
    simpa using h
  have hlen : (Coords.map fun x => |x - t|).length = Coords.length := by simp
  have hi : nearestIdx Coords t < Coords.length := by
    have := npArgmin_lt_length _ hL
    rwa [hlen] at this
  refine ⟨hi, ?_, ?_, rfl, rfl, rfl, rfl⟩
  · intro j hj
    have hid : npArgmin (List.map (fun x => |x - t|) Coords) = nearestIdx Coords t := rfl
    have := npArgmin_min (Coords.map fun x => |x - t|) j (by rwa [hlen])
    rw [hid] at this
    rwa [getD_map_of_lt _ Coords _ hi 0 0,
      getD_map_of_lt _ Coords j hj 0 0] at this
  · intro j hj
    have hid : npArgmin (List.map (fun x => |x - t|) Coords) = nearestIdx Coords t := rfl
    have hjlen : j < Coords.length := lt_trans hj hi
    have := npArgmin_first (Coords.map fun x => |x - t|) j hj
    rw [hid] at this
    rwa [getD_map_of_lt _ Coords _ hi 0 0,
      getD_map_of_lt _ Coords j hjlen 0 0] at this

/-- Witness for C2 at the concrete array `[3, 1]` and target `0`. -/
theorem C2_bounding_box_resolver_witness :
    (([3, 1] : List ℚ) ≠ []) ∧
    (nearestIdx [3, 1] 0 < ([3, 1] : List ℚ).length ∧
    (∀ j < ([3, 1] : List ℚ).length,
      |([3, 1] : List ℚ).getD (nearestIdx [3, 1] 0) 0 - 0| ≤
        |([3, 1] : List ℚ).getD j 0 - 0|) ∧
    (∀ j < nearestIdx [3, 1] 0,
      |([3, 1] : List ℚ).getD (nearestIdx [3, 1] 0) 0 - 0| <
        |([3, 1] : List ℚ).getD j 0 - 0|) ∧
    IdxNorth [3, 1] 0 = nearestIdx [3, 1] 0 + 1 ∧
    IdxEast [3, 1] 0 = nearestIdx [3, 1] 0 + 1 ∧
    IdxSouth [3, 1] 0 = nearestIdx [3, 1] 0 ∧
    IdxWest [3, 1] 0 = nearestIdx [3, 1] 0) :=
  ⟨by simp, C2_bounding_box_resolver [3, 1] 0 (by simp)⟩

/-- C9: the sentinel repair is idempotent, because the replacement value
0.001 is itself below the 1000 threshold. -/
theorem C9_replacer_idempotent : ∀ x : ℚ, Replacer (Replacer x) = Replacer x := by
  intro x
  unfold Replacer
  split
  · norm_num
  · rfl



/-! ### The grid-to-table flattener -/

theorem flatten_length_of_uniform {α : Type} (O : ℕ) :
    ∀ L : List (List α), (∀ l ∈ L, l.length = O) →
      L.flatten.length = L.length * O := by
  intro L
  induction L with
  | nil => simp
  | cons a L' ih =>
    intro h
    simp only [List.flatten_cons, List.length_append, List.length_cons]
    rw [h a (by simp), ih (fun l hl => h l (by simp [hl]))]
    ring

theorem flatten_getD_of_uniform {α : Type} (O : ℕ) (d : α) :
    ∀ (L : List (List α)), (∀ l ∈ L, l.length = O) →
      ∀ i j, i < L.length → j < O →
        L.flatten.getD (i * O + j) d = (L.getD i []).getD j d := by
  intro L
  induction L with
  | nil => simp
  | cons a L' ih =>
    intro h i j hi hj
    simp only [List.flatten_cons]
    cases i with
    | zero =>
      have hja : j < a.length := by rw [h a (by simp)]; exact hj
      rw [Nat.zero_mul, Nat.zero_add, List.getD_append _ _ _ _ hja,
        List.getD_cons_zero]
    | succ i' =>
      have ha : a.length = O := h a (by simp)
      have hle : a.length ≤ (i' + 1) * O + j := by
        rw [ha, Nat.succ_mul]
        omega
      rw [List.getD_append_right _ _ _ _ hle, List.getD_cons_succ]
      have harith : (i' + 1) * O + j - a.length = i' * O + j := by
        rw [ha, Nat.succ_mul]
        omega
      rw [harith]
      exact ih (fun l hl => h l (by simp [hl])) i' j (by simpa using hi) hj

theorem flattener_cols_length (Data : NCDataset) (U : ℚ) :
    (NetCDFToSHETRAN Data U).cols.length =
      Data.lat.length * Data.lon.length := by
  unfold NetCDFToSHETRAN
  rw [flatten_length_of_uniform Data.lon.length]
  · simp
  · intro l hl
    simp only [List.mem_map] at hl
    obtain ⟨la, -, rfl⟩ := hl
    simp

theorem flattener_col_content (Data : NCDataset) (U : ℚ) (la lo : ℕ)
    (hla : la < Data.lat.length) (hlo : lo < Data.lon.length) :
    (NetCDFToSHETRAN Data U).cols.getD (la * Data.lon.length + lo) [] =
      (cellSeries Data la lo).map fun v => round1 (v * U) := by
  unfold NetCDFToSHETRAN
  rw [flatten_getD_of_uniform Data.lon.length []]
  · rw [getD_range_map _ _ _ hla, getD_range_map _ _ _ hlo]
  · intro l hl
    simp only [List.mem_map] at hl
    obtain ⟨la', -, rfl⟩ := hl
    simp
  · simpa using hla
  · exact hlo

theorem flattener_col_length (Data : NCDataset) (U : ℚ)
    (h : NCWellFormed Data) :
    ∀ c ∈ (NetCDFToSHETRAN Data U).cols, c.length = Data.time.length := by
  intro c hc
  unfold NetCDFToSHETRAN at hc
  simp only [List.mem_flatten, List.mem_map, List.mem_range] at hc
  obtain ⟨inner, ⟨la, hla, rfl⟩, hcin⟩ := hc
  simp only [List.mem_map, List.mem_range] at hcin
  obtain ⟨lo, hlo, rfl⟩ := hcin
  simp [cellSeries, h.1]

/-- C3: flattening a grid with `L` latitude cells, `O` longitude cells and
`T` time steps yields a table of exactly `L * O` columns and `T` rows, whose
row index is the raw time coordinate and whose column at position
`la * O + lo` is the processed series of cell `(la, lo)` — latitude outer
loop, longitude inner loop. -/
theorem C3_flattener_shape (Data : NCDataset) (U : ℚ) (h : NCWellFormed Data) :
    (NetCDFToSHETRAN Data U).cols.length =
      Data.lat.length * Data.lon.length ∧
    (NetCDFToSHETRAN Data U).index = Data.time ∧
    (∀ c ∈ (NetCDFToSHETRAN Data U).cols, c.length = Data.time.length) ∧
    ∀ la < Data.lat.length, ∀ lo < Data.lon.length,
      (NetCDFToSHETRAN Data U).cols.getD (la * Data.lon.length + lo) [] =
        (cellSeries Data la lo).map fun v => round1 (v * U) :=
  ⟨flattener_cols_length Data U, rfl, flattener_col_length Data U h,
    fun la hla lo hlo => flattener_col_content Data U la lo hla hlo⟩

/-- Witness for C3 at a concrete 1×1×1 grid. -/
theorem C3_flattener_shape_witness :
    NCWellFormed { time := [0], lat := [5], lon := [7], var := [[[2]]] } ∧
    ((NetCDFToSHETRAN { time := [0], lat := [5], lon := [7], var := [[[2]]] } 1).cols.length =
      ([5] : List ℚ).length * ([7] : List ℚ).length ∧
    (NetCDFToSHETRAN { time := [0], lat := [5], lon := [7], var := [[[2]]] } 1).index = [0] ∧
    (∀ c ∈ (NetCDFToSHETRAN { time := [0], lat := [5], lon := [7], var := [[[2]]] } 1).cols,
      c.length = ([0] : List ℕ).length) ∧
    ∀ la < ([5] : List ℚ).length, ∀ lo < ([7] : List ℚ).length,
      (NetCDFToSHETRAN { time := [0], lat := [5], lon := [7], var := [[[2]]] } 1).cols.getD
          (la * ([7] : List ℚ).length + lo) [] =
        (cellSeries { time := [0], lat := [5], lon := [7], var := [[[2]]] } la lo).map
          fun v => round1 (v * 1)) := by
  have hwf : NCWellFormed { time := [0], lat := [5], lon := [7], var := [[[2]]] } := by
    constructor
    · simp
    · intro frame hf
      simp only [List.mem_singleton] at hf
      subst hf
      constructor
      · simp
      · intro row hr
        simp only [List.mem_singleton] at hr
        subst hr
        simp
  exact ⟨hwf, C3_flattener_shape _ 1 hwf⟩



/-- The example grid of §8 of the spec: 48 hourly steps, 2 latitude cells,
3 longitude cells, every raw value 10. -/
def exampleGrid : NCDataset :=
  { time := List.range 48
    lat := [0, 1]
    lon := [0, 1, 2]
    var := List.replicate 48 (List.replicate 2 (List.replicate 3 (10 : ℚ))) }

theorem exampleGrid_wf : NCWellFormed exampleGrid := by
  constructor
  · simp [exampleGrid]
  · intro frame hf
    simp only [exampleGrid, List.eq_of_mem_replicate hf]
    constructor
    · simp
    · intro row hr
      simp [List.eq_of_mem_replicate hr]

theorem round1_36 : round1 (36 : ℚ) = 36 := by
  unfold round1 roundHalfEven
  norm_num

theorem round1_ten_conv : round1 ((10 : ℚ) * (36/10)) = 36 := by
  rw [show (10 : ℚ) * (36/10) = 36 by norm_num]
  exact round1_36

theorem exampleGrid_cell_value :
    ((NetCDFToSHETRAN exampleGrid (36/10)).cols.getD 0 []).getD 0 0 = 36 := by
  have h00 : (0 : ℕ) * exampleGrid.lon.length + 0 = 0 := by simp
  have hc := flattener_col_content exampleGrid (36/10) 0 0
    (by simp [exampleGrid]) (by simp [exampleGrid])
  rw [h00] at hc
  rw [hc]
  have hser : cellSeries exampleGrid 0 0 = List.replicate 48 (10 : ℚ) := by
    unfold cellSeries exampleGrid
    rw [List.map_replicate]
    rfl
  rw [hser, List.map_replicate, List.getD_eq_getElem?_getD,
    List.getElem?_replicate]
  norm_num [round1_ten_conv, round1_36]

/-- C8: for every cell the stored column is the raw series multiplied by the
conversion factor and rounded to one decimal place; in particular the
48 × 2 × 3 example grid with conversion 3.6 yields a table of shape
(48, 6), and raw value 10 maps to exactly 36.0. -/
theorem C8_flattener_numeric (Data : NCDataset) (U : ℚ) (_h : NCWellFormed Data) :
    (∀ la < Data.lat.length, ∀ lo < Data.lon.length,
      (NetCDFToSHETRAN Data U).cols.getD (la * Data.lon.length + lo) [] =
        (cellSeries Data la lo).map fun v => round1 (v * U)) ∧
    (NetCDFToSHETRAN exampleGrid (36/10)).cols.length = 6 ∧
    (∀ c ∈ (NetCDFToSHETRAN exampleGrid (36/10)).cols, c.length = 48) ∧
    ((NetCDFToSHETRAN exampleGrid (36/10)).cols.getD 0 []).getD 0 0 = 36 ∧
    round1 ((10 : ℚ) * (36/10)) = 36 := by
  refine ⟨fun la hla lo hlo => flattener_col_content Data U la lo hla hlo,
    ?_, ?_, exampleGrid_cell_value, round1_ten_conv⟩
  · rw [flattener_cols_length]
    simp [exampleGrid]
  · intro c hc
    have := flattener_col_length exampleGrid (36/10) exampleGrid_wf c hc
    simpa [exampleGrid] using this

/-- Witness for C8 at the example grid itself. -/
theorem C8_flattener_numeric_witness :
    NCWellFormed exampleGrid ∧
    ((∀ la < exampleGrid.lat.length, ∀ lo < exampleGrid.lon.length,
      (NetCDFToSHETRAN exampleGrid (36/10)).cols.getD
          (la * exampleGrid.lon.length + lo) [] =
        (cellSeries exampleGrid la lo).map fun v => round1 (v * (36/10))) ∧
    (NetCDFToSHETRAN exampleGrid (36/10)).cols.length = 6 ∧
    (∀ c ∈ (NetCDFToSHETRAN exampleGrid (36/10)).cols, c.length = 48) ∧
    ((NetCDFToSHETRAN exampleGrid (36/10)).cols.getD 0 []).getD 0 0 = 36 ∧
    round1 ((10 : ℚ) * (36/10)) = 36) :=
  ⟨exampleGrid_wf, C8_flattener_numeric exampleGrid (36/10) exampleGrid_wf⟩



/-! ### The spatial clipper -/

theorem length_pySlice {α : Type} (l : List α) (a b : ℕ) (hb : b ≤ l.length) :
    (pySlice l a b).length = b - a := by
  simp only [pySlice, List.length_take, List.length_drop]
  omega

theorem getD_pySlice {α : Type} (l : List α) (a b i : ℕ) (d : α)
    (hi : i < b - a) :
    (pySlice l a b).getD i d = l.getD (a + i) d := by
  simp [pySlice, List.getD_eq_getElem?_getD, List.getElem?_take,
    List.getElem?_drop, hi]

theorem pySlice_of_le {α : Type} (l : List α) (a b : ℕ) (h : l.length ≤ b) :
    pySlice l a b = l.drop a := by
  apply List.take_of_length_le
  simp only [List.length_drop]
  omega

/-- C4: for an index window within bounds, the clipper's output keeps the
time coordinate whole, slices the longitude coordinate to `[w:e]`, the
latitude coordinate to `[s:n]`, and the variable to `[:, s:n, w:e]`; being a
pure function of the source dataset, it never modifies it. -/
theorem C4_clipper (FileRaw : NCDataset) (w e s n : ℕ)
    (hwf : NCWellFormed FileRaw)
    (he : e ≤ FileRaw.lon.length) (hn : n ≤ FileRaw.lat.length) :
    (WFDE5NetCDFClipper FileRaw w e n s).time = FileRaw.time ∧
    (WFDE5NetCDFClipper FileRaw w e n s).lon.length = e - w ∧
    (WFDE5NetCDFClipper FileRaw w e n s).lat.length = n - s ∧
    (∀ i < e - w, (WFDE5NetCDFClipper FileRaw w e n s).lon.getD i 0 =
      FileRaw.lon.getD (w + i) 0) ∧
    (∀ i < n - s, (WFDE5NetCDFClipper FileRaw w e n s).lat.getD i 0 =
      FileRaw.lat.getD (s + i) 0) ∧
    (WFDE5NetCDFClipper FileRaw w e n s).var.length = FileRaw.var.length ∧
    (∀ t la lo, t < FileRaw.var.length → la < n - s → lo < e - w →
      (((WFDE5NetCDFClipper FileRaw w e n s).var.getD t []).getD la []).getD lo 0 =
        ((FileRaw.var.getD t []).getD (s + la) []).getD (w + lo) 0) := by
  refine ⟨rfl, length_pySlice _ _ _ he, length_pySlice _ _ _ hn,
    fun i hi => getD_pySlice _ _ _ _ _ hi,
    fun i hi => getD_pySlice _ _ _ _ _ hi, by simp [WFDE5NetCDFClipper], ?_⟩
  intro t la lo ht hla hlo
  have hframe : FileRaw.var.getD t [] ∈ FileRaw.var := getD_mem_of_lt _ _ ht _
  have hflen : (FileRaw.var.getD t []).length = FileRaw.lat.length :=
    (hwf.2 _ hframe).1
  have hclip :
      (WFDE5NetCDFClipper FileRaw w e n s).var.getD t [] =
        (pySlice (FileRaw.var.getD t []) s n).map fun row => pySlice row w e := by
    show ((FileRaw.var.map fun frame =>
      (pySlice frame s n).map fun row => pySlice row w e).getD t []) = _
    rw [getD_map_of_lt _ _ _ ht [] []]
  rw [hclip]
  have hlen_slice : (pySlice (FileRaw.var.getD t []) s n).length = n - s :=
    length_pySlice _ _ _ (by rw [hflen]; exact hn)
  rw [getD_map_of_lt _ _ la (by rw [hlen_slice]; exact hla) [] [],
    getD_pySlice _ _ _ _ _ hla, getD_pySlice _ _ _ _ _ hlo]

/-- A small concrete dataset: one time step, two latitude and two longitude
cells. -/
def srcSmall : NCDataset :=
  { time := [0], lat := [1, 2], lon := [3, 4], var := [[[5, 6], [7, 8]]] }

theorem srcSmall_wf : NCWellFormed srcSmall := by
  constructor
  · simp [srcSmall]
  · intro frame hf
    simp only [srcSmall, List.mem_singleton] at hf
    subst hf
    constructor
    · simp [srcSmall]
    · intro row hr
      simp only [List.mem_cons, List.mem_singleton, List.not_mem_nil, or_false] at hr
      rcases hr with h | h <;> subst h <;> simp [srcSmall]

/-- Witness for C4 at `srcSmall` with the window `w=0, e=1, s=0, n=1`. -/
theorem C4_clipper_witness :
    NCWellFormed srcSmall ∧ 1 ≤ srcSmall.lon.length ∧ 1 ≤ srcSmall.lat.length ∧
    ((WFDE5NetCDFClipper srcSmall 0 1 1 0).time = srcSmall.time ∧
    (WFDE5NetCDFClipper srcSmall 0 1 1 0).lon.length = 1 - 0 ∧
    (WFDE5NetCDFClipper srcSmall 0 1 1 0).lat.length = 1 - 0 ∧
    (∀ i < 1 - 0, (WFDE5NetCDFClipper srcSmall 0 1 1 0).lon.getD i 0 =
      srcSmall.lon.getD (0 + i) 0) ∧
    (∀ i < 1 - 0, (WFDE5NetCDFClipper srcSmall 0 1 1 0).lat.getD i 0 =
      srcSmall.lat.getD (0 + i) 0) ∧
    (WFDE5NetCDFClipper srcSmall 0 1 1 0).var.length = srcSmall.var.length ∧
    (∀ t la lo, t < srcSmall.var.length → la < 1 - 0 → lo < 1 - 0 →
      (((WFDE5NetCDFClipper srcSmall 0 1 1 0).var.getD t []).getD la []).getD lo 0 =
        ((srcSmall.var.getD t []).getD (0 + la) []).getD (0 + lo) 0)) :=
  ⟨srcSmall_wf, by simp [srcSmall], by simp [srcSmall],
    C4_clipper srcSmall 0 1 0 1 srcSmall_wf (by simp [srcSmall]) (by simp [srcSmall])⟩

/-- C7 fails on the code: with an east bound of 5 on a longitude axis of
length 2 (window exceeding the source dimensions), the clipper does not
fail — Python slice semantics clamp the bounds and it returns a full output
dataset. -/
theorem C7_counterexample :
    srcSmall.lon.length < 5 ∧
    WFDE5NetCDFClipper srcSmall 0 5 2 0 =
      { time := [0], lat := [1, 2], lon := [3, 4], var := [[[5, 6], [7, 8]]] } ∧
    (WFDE5NetCDFClipper srcSmall 0 5 2 0).lon.length ≠ 5 := by
  refine ⟨by simp [srcSmall], ?_, by simp [WFDE5NetCDFClipper, pySlice, srcSmall]⟩
  simp [WFDE5NetCDFClipper, pySlice, srcSmall]

/-- C7 amended: when the requested window exceeds the source dataset's
dimensions, the clipper still produces an output dataset — the slice bounds
are clamped to the available extent (Python slice semantics), with the time
coordinate untouched. -/
theorem C7_clamped_window (FileRaw : NCDataset) (w e s n : ℕ)
    (he : FileRaw.lon.length ≤ e) (hn : FileRaw.lat.length ≤ n) :
    (WFDE5NetCDFClipper FileRaw w e n s).lon = FileRaw.lon.drop w ∧
    (WFDE5NetCDFClipper FileRaw w e n s).lat = FileRaw.lat.drop s ∧
    (WFDE5NetCDFClipper FileRaw w e n s).lon.length = FileRaw.lon.length - w ∧
    (WFDE5NetCDFClipper FileRaw w e n s).lat.length = FileRaw.lat.length - s ∧
    (WFDE5NetCDFClipper FileRaw w e n s).time = FileRaw.time := by
  have hlon : pySlice FileRaw.lon w e = FileRaw.lon.drop w := pySlice_of_le _ _ _ he
  have hlat : pySlice FileRaw.lat s n = FileRaw.lat.drop s := pySlice_of_le _ _ _ hn
  exact ⟨hlon, hlat, by rw [show (WFDE5NetCDFClipper FileRaw w e n s).lon =
      pySlice FileRaw.lon w e from rfl, hlon]; simp,
    by rw [show (WFDE5NetCDFClipper FileRaw w e n s).lat =
      pySlice FileRaw.lat s n from rfl, hlat]; simp, rfl⟩

/-- Witness for the amended C7 at `srcSmall` with the oversized window
`w=0, e=5, s=0, n=3`. -/
theorem C7_clamped_window_witness :
    srcSmall.lon.length ≤ 5 ∧ srcSmall.lat.length ≤ 3 ∧
    ((WFDE5NetCDFClipper srcSmall 0 5 3 0).lon = srcSmall.lon.drop 0 ∧
    (WFDE5NetCDFClipper srcSmall 0 5 3 0).lat = srcSmall.lat.drop 0 ∧
    (WFDE5NetCDFClipper srcSmall 0 5 3 0).lon.length = srcSmall.lon.length - 0 ∧
    (WFDE5NetCDFClipper srcSmall 0 5 3 0).lat.length = srcSmall.lat.length - 0 ∧
    (WFDE5NetCDFClipper srcSmall 0 5 3 0).time = srcSmall.time) :=
  ⟨by simp [srcSmall], by simp [srcSmall],
    C7_clamped_window srcSmall 0 5 0 3 (by simp [srcSmall]) (by simp [srcSmall])⟩



/-! ### The table merger -/

theorem tableIndex_length (m : Table) : (tableIndex m).length = m.length := by
  simp [tableIndex]

theorem tableIndex_repairTable (m : Table) :
    tableIndex (repairTable m) = tableIndex m := by
  simp [tableIndex, repairTable, List.map_map, Function.comp]

theorem sortTable_of_sorted :
    ∀ m : Table, List.Pairwise (fun a b => a.1 < b.1) m → sortTable m = m := by
  intro m
  induction m with
  | nil => intro _; rfl
  | cons r t ih =>
    intro h
    rw [List.pairwise_cons] at h
    show insertRow r (sortTable t) = r :: t
    rw [ih h.2]
    cases t with
    | nil => rfl
    | cons s t' =>
      show (if r.1 < s.1 then r :: s :: t' else s :: insertRow r t') = r :: s :: t'
      rw [if_pos (h.1 s (by simp))]

theorem headD_range' (s n d : ℕ) : (List.range' s (n + 1)).headD d = s := by
  rw [List.range'_succ]
  rfl

theorem getLastD_range' :
    ∀ n s d : ℕ, (List.range' s (n + 1)).getLastD d = s + n := by
  intro n
  induction n with
  | zero => intro s d; simp [List.range'_one]
  | succ n' ih =>
    intro s d
    rw [List.range'_succ, List.getLastD_cons, ih (s + 1)]
    omega

theorem getD_range' (s n i d : ℕ) (h : i < n) :
    (List.range' s n).getD i d = s + i := by
  have hlen : i < (List.range' s n).length := by simpa using h
  rw [List.getD_eq_getElem?_getD, List.getElem?_eq_getElem hlen,
    List.getElem_range']
  simp

/-- When the combined table's raw index is the contiguous hour range
`[a, a+k)` lying inside the reference calendar sequence, the calendar
re-indexing succeeds and replaces the index by exactly that range of
calendar timestamps. -/
theorem reindexed_of_range (m : Table) (a k : ℕ) (hk : 0 < k)
    (hlen : a + k ≤ DateIndexLen)
    (hidx : tableIndex m = List.range' a k) :
    reindexed m = some ((List.range' a k).zip (m.map Prod.snd)) ∧
    tableIndex ((List.range' a k).zip (m.map Prod.snd)) = List.range' a k := by
  obtain ⟨k', rfl⟩ : ∃ k', k = k' + 1 := ⟨k - 1, by omega⟩
  have hmlen : m.length = k' + 1 := by
    rw [← tableIndex_length, hidx]
    simp
  have hsub : calendarSubset m = List.range' a (k' + 1) := by
    unfold calendarSubset
    rw [hidx, headD_range', getLastD_range']
    have hmin : min (a + k' + 1) DateIndexLen = a + k' + 1 :=
      Nat.min_eq_left (by omega)
    rw [hmin]
    congr 1
    omega
  have hne : ¬ m.isEmpty = true := by
    rw [List.isEmpty_iff]
    intro hnil
    rw [hnil] at hmlen
    simp at hmlen
  constructor
  · unfold reindexed
    rw [if_neg hne, hsub, if_pos (by simp [hmlen])]
  · unfold tableIndex
    rw [List.map_fst_zip]
    simp [hmlen]

/-- C6: if the row count of the combined table differs from the length of
the computed calendar subset, the re-indexing step aborts (pandas raises)
rather than producing a table; whenever it does produce a table, the row
count matched and the assigned index is exactly the calendar subset. -/
theorem C6_reindex_abort (m : Table) :
    (m.length ≠ (calendarSubset m).length → reindexed m = none) ∧
    ∀ r, reindexed m = some r →
      m.length = (calendarSubset m).length ∧ tableIndex r = calendarSubset m := by
  constructor
  · intro hne
    simp [reindexed, hne]
  · intro r hr
    unfold reindexed at hr
    split at hr
    · exact absurd hr (by simp)
    · by_cases hlen : m.length = (calendarSubset m).length
      · rw [if_pos hlen] at hr
        refine ⟨hlen, ?_⟩
        obtain rfl : (calendarSubset m).zip (m.map Prod.snd) = r :=
          Option.some.inj hr
        unfold tableIndex
        rw [List.map_fst_zip]
        simp [← hlen]
      · rw [if_neg hlen] at hr
        exact absurd hr (by simp)

/-- Witness for C6: a two-row table whose raw index `[0, 5]` has a gap, so
the calendar subset has 6 entries against 2 rows, and re-indexing aborts. -/
theorem C6_reindex_abort_witness :
    (([(0, []), (5, [])] : Table).length ≠
      (calendarSubset [(0, []), (5, [])]).length) ∧
    reindexed [(0, []), (5, [])] = none :=
  ⟨by norm_num [calendarSubset, tableIndex, DateIndexLen],
    (C6_reindex_abort [(0, []), (5, [])]).1
      (by norm_num [calendarSubset, tableIndex, DateIndexLen])⟩



/-- C5: merging two non-overlapping monthly tables with raw hour ranges
`[0,743]` and `[744,1487]`: concatenation and sort give the contiguous range
`[0,1488)`, calendar re-indexing succeeds and is gap-free (consecutive
timestamps differ by one hour), and daily resampling yields exactly 62 rows
— one per distinct calendar day spanned, no day repeated, no day missed. -/
theorem C5_merger_calendar (A B : Table)
    (hA : tableIndex A = List.range' 0 744)
    (hB : tableIndex B = List.range' 744 744) :
    ∃ M F,
      reindexed (sortTable ([A, B] : List Table).flatten) = some M ∧
      tableIndex M = List.range' 0 1488 ∧
      mergePipeline [A, B] = some F ∧
      tableIndex F = List.range' 0 62 ∧
      F.length = 62 ∧
      (∀ k, k + 1 < 1488 →
        (tableIndex M).getD (k + 1) 0 = (tableIndex M).getD k 0 + 1) ∧
      (tableIndex F).Nodup ∧
      (∀ hh ∈ tableIndex M, dayOf hh ∈ tableIndex F) ∧
      (∀ d ∈ tableIndex F, ∃ hh ∈ tableIndex M, dayOf hh = d) := by
  have hflat : ([A, B] : List Table).flatten = A ++ B := by simp
  have hcat : tableIndex (A ++ B) = List.range' 0 1488 := by
    unfold tableIndex at hA hB ⊢
    rw [List.map_append, hA, hB]
    have happ := List.range'_append 0 744 744 1
    norm_num at happ
    exact happ
  have hsorted : List.Pairwise (fun a b : ℕ × List ℚ => a.1 < b.1) (A ++ B) := by
    have h1 : List.Pairwise (· < ·) (tableIndex (A ++ B)) := by
      rw [hcat]
      exact List.pairwise_lt_range' 0 1488
    unfold tableIndex at h1
    exact List.pairwise_map.mp h1
  have hsort : sortTable (A ++ B) = A ++ B := sortTable_of_sorted _ hsorted
  obtain ⟨hre, hMidx⟩ := reindexed_of_range (A ++ B) 0 1488 (by norm_num)
    (by norm_num [DateIndexLen]) hcat
  set M : Table := (List.range' 0 1488).zip ((A ++ B).map Prod.snd) with hMdef
  have hMlen : M.length = 1488 := by
    rw [← tableIndex_length, hMidx]
    simp
  have hMne : ¬ M.isEmpty = true := by
    rw [List.isEmpty_iff]
    intro hnil
    rw [hnil] at hMlen
    simp at hMlen
  have hres : tableIndex (resampleDaily M) = List.range' 0 62 := by
    unfold resampleDaily
    rw [if_neg hMne, hMidx]
    rw [show List.range' 0 1488 = List.range' 0 (1487 + 1) from by norm_num,
      headD_range', getLastD_range']
    norm_num [dayOf]
    simp only [tableIndex, List.map_map]
    exact List.map_id' _
  have htF : tableIndex (repairTable (resampleDaily M)) = List.range' 0 62 := by
    rw [tableIndex_repairTable]
    exact hres
  refine ⟨M, repairTable (resampleDaily M), ?_, hMidx, ?_, htF, ?_, ?_, ?_, ?_, ?_⟩
  · rw [hflat, hsort]
    exact hre
  · unfold mergePipeline mergeDaily
    rw [hflat, hsort, hre]
    rfl
  · rw [← tableIndex_length, htF]
    simp
  · intro k hk
    rw [hMidx, getD_range' 0 1488 (k + 1) 0 hk, getD_range' 0 1488 k 0 (by omega)]
    omega
  · rw [htF]
    exact List.nodup_range' 0 62
  · intro hh hmem
    rw [hMidx] at hmem
    rw [htF]
    rw [List.mem_range'_1] at hmem ⊢
    unfold dayOf
    omega
  · intro d hmem
    rw [htF] at hmem
    rw [List.mem_range'_1] at hmem
    refine ⟨24 * d, ?_, ?_⟩
    · rw [hMidx, List.mem_range'_1]
      omega
    · unfold dayOf
      omega

/-- A concrete per-period table with raw hour range `[0,743]` and no value
columns. -/
def tblA : Table := (List.range' 0 744).map fun hh => (hh, [])

/-- A concrete per-period table with raw hour range `[744,1487]` and no
value columns. -/
def tblB : Table := (List.range' 744 744).map fun hh => (hh, [])

/-- Witness for C5 at the concrete pair of monthly tables. -/
theorem C5_merger_calendar_witness :
    tableIndex tblA = List.range' 0 744 ∧
    tableIndex tblB = List.range' 744 744 ∧
    (∃ M F,
      reindexed (sortTable ([tblA, tblB] : List Table).flatten) = some M ∧
      tableIndex M = List.range' 0 1488 ∧
      mergePipeline [tblA, tblB] = some F ∧
      tableIndex F = List.range' 0 62 ∧
      F.length = 62 ∧
      (∀ k, k + 1 < 1488 →
        (tableIndex M).getD (k + 1) 0 = (tableIndex M).getD k 0 + 1) ∧
      (tableIndex F).Nodup ∧
      (∀ hh ∈ tableIndex M, dayOf hh ∈ tableIndex F) ∧
      (∀ d ∈ tableIndex F, ∃ hh ∈ tableIndex M, dayOf hh = d)) :=
  ⟨by simp only [tableIndex, tblA, List.map_map]; exact List.map_id' _,
    by simp only [tableIndex, tblB, List.map_map]; exact List.map_id' _,
    C5_merger_calendar tblA tblB
      (by simp only [tableIndex, tblA, List.map_map]; exact List.map_id' _)
      (by simp only [tableIndex, tblB, List.map_map]; exact List.map_id' _)⟩



/-! ### The sentinel repair -/

/-- C1 fails on the code: the repair tests `x > 1000`, not `|x| > 1000`.  A
daily value of `-2000` — magnitude above 1000 — reaches the final table
unchanged instead of becoming `0.001`. -/
theorem C1_counterexample :
    mergePipeline [[(0, [(-2000 : ℚ)])]] = some [(0, [(-2000 : ℚ)])] ∧
    |(-2000 : ℚ)| > 1000 ∧ (-2000 : ℚ) ≠ 1/1000 := by
  refine ⟨?_, by norm_num, by norm_num⟩
  norm_num [mergePipeline, mergeDaily, reindexed, calendarSubset, tableIndex,
    sortTable, insertRow, resampleDaily, daySum, nColsOf, addRows, dayOf,
    repairTable, Replacer, DateIndexLen]

/-- C1 amended: after daily resampling, every value strictly greater than
1000 is replaced by exactly 0.001, and every value at most 1000 — including
negative values of magnitude above 1000 — is left unchanged, in every row
and column of the final table. -/
theorem C1_sentinel_repair (DfList : List Table) (D F : Table)
    (hD : mergeDaily DfList = some D) (hF : mergePipeline DfList = some F) :
    tableIndex F = tableIndex D ∧ F.length = D.length ∧
    ∀ i j, ((F.getD i (0, [])).2).getD j 0 =
      (if ((D.getD i (0, [])).2).getD j 0 > 1000 then 1/1000
       else ((D.getD i (0, [])).2).getD j 0) := by
  have hFD : F = repairTable D := by
    unfold mergePipeline at hF
    rw [hD] at hF
    exact (Option.some.inj hF).symm
  subst hFD
  refine ⟨tableIndex_repairTable D, by simp [repairTable], ?_⟩
  intro i j
  have hrow : (repairTable D).getD i (0, []) =
      ((D.getD i (0, [])).1, (D.getD i (0, [])).2.map Replacer) := by
    unfold repairTable
    rw [getD_map_of_default (fun r => (r.1, r.2.map Replacer)) (0, []) (0, [])
      (by simp) D i]
  rw [hrow]
  simp only
  rw [getD_map_of_default Replacer 0 0 (by norm_num [Replacer]) _ j]
  rfl

/-- Witness for the amended C1 on a one-row merge whose daily value 5 is
below the threshold and survives unchanged. -/
theorem C1_sentinel_repair_witness :
    mergeDaily [[(0, [(5 : ℚ)])]] = some [(0, [(5 : ℚ)])] ∧
    mergePipeline [[(0, [(5 : ℚ)])]] = some [(0, [(5 : ℚ)])] ∧
    (tableIndex [(0, [(5 : ℚ)])] = tableIndex [(0, [(5 : ℚ)])] ∧
    ([(0, [(5 : ℚ)])] : Table).length = ([(0, [(5 : ℚ)])] : Table).length ∧
    ∀ i j, ((([(0, [(5 : ℚ)])] : Table).getD i (0, [])).2).getD j 0 =
      (if ((([(0, [(5 : ℚ)])] : Table).getD i (0, [])).2).getD j 0 > 1000
       then 1/1000
       else ((([(0, [(5 : ℚ)])] : Table).getD i (0, [])).2).getD j 0)) := by
  have h1 : mergeDaily [[(0, [(5 : ℚ)])]] = some [(0, [(5 : ℚ)])] := by
    norm_num [mergeDaily, reindexed, calendarSubset, tableIndex, sortTable,
      insertRow, resampleDaily, daySum, nColsOf, addRows, dayOf, DateIndexLen]
  have h2 : mergePipeline [[(0, [(5 : ℚ)])]] = some [(0, [(5 : ℚ)])] := by
    unfold mergePipeline
    rw [h1]
    norm_num [repairTable, Replacer]
  exact ⟨h1, h2, C1_sentinel_repair [[(0, [(5 : ℚ)])]] _ _ h1 h2⟩



/-! ### The ASC parameter-file parser -/

/-- C10: when the file has at most `Nrows` data lines after the 6-line
header and each line at most `Ncols` tokens, the parser returns a table of
exactly `Nrows × Ncols` entries in which every position supplied by a token
holds that token and every other position holds exactly the
zero-initialised fill. -/
theorem C10_asc_table (lines : List (List ℚ)) (Nrows Ncols : ℕ)
    (hr : (lines.drop 6).length ≤ Nrows)
    (hc : ∀ l ∈ lines.drop 6, l.length ≤ Ncols) :
    ∃ M, ASCtoDfParam lines Nrows Ncols = some M ∧
      M.length = Nrows ∧
      (∀ row ∈ M, row.length = Ncols) ∧
      (∀ r c, r < Nrows → c < Ncols →
        (M.getD r []).getD c 0 = ascEntry (lines.drop 6) r c) ∧
      (∀ r c, r < Nrows → c < Ncols →
        ((lines.drop 6).getD r []).length ≤ c →
        (M.getD r []).getD c 0 = 0) := by
  have hok : ascOk (lines.drop 6) Nrows Ncols := by
    intro i hi
    right
    exact ⟨lt_of_lt_of_le hi hr, hc _ (getD_mem_of_lt _ _ hi [])⟩
  refine ⟨_, by rw [ASCtoDfParam, if_pos hok], ?_, ?_, ?_, ?_⟩
  · simp
  · intro row hrow
    simp only [List.mem_map, List.mem_range] at hrow
    obtain ⟨r, -, rfl⟩ := hrow
    simp
  · intro r c hrn hcn
    rw [getD_range_map _ _ _ hrn, getD_range_map _ _ _ hcn]
  · intro r c hrn hcn hlen
    rw [getD_range_map _ _ _ hrn, getD_range_map _ _ _ hcn]
    unfold ascEntry
    exact List.getD_eq_default _ _ hlen

/-- Witness for C10: a file with 6 header lines and one two-token data line,
parsed as a 2 × 3 table. -/
theorem C10_asc_table_witness :
    (([[], [], [], [], [], [], [(1 : ℚ), 2]].drop 6).length ≤ 2) ∧
    (∀ l ∈ [[], [], [], [], [], [], [(1 : ℚ), 2]].drop 6, l.length ≤ 3) ∧
    (∃ M, ASCtoDfParam [[], [], [], [], [], [], [(1 : ℚ), 2]] 2 3 = some M ∧
      M.length = 2 ∧
      (∀ row ∈ M, row.length = 3) ∧
      (∀ r c, r < 2 → c < 3 →
        (M.getD r []).getD c 0 =
          ascEntry ([[], [], [], [], [], [], [(1 : ℚ), 2]].drop 6) r c) ∧
      (∀ r c, r < 2 → c < 3 →
        (([[], [], [], [], [], [], [(1 : ℚ), 2]].drop 6).getD r []).length ≤ c →
        (M.getD r []).getD c 0 = 0)) :=
  ⟨by norm_num, by norm_num,
    C10_asc_table [[], [], [], [], [], [], [(1 : ℚ), 2]] 2 3
      (by norm_num) (by norm_num)⟩

end WFDE5
